import Mathlib

/-
Shallow embedding of src/simple_fs.c, a minimal read-only Linux filesystem
module ("simplefs").  The embedding models the pure computational core of
each operation: the static entry catalog, the inode materialization in
simplefs_iget, directory lookup and enumeration, and the page/folio read
path.  Host-kernel collaborators (inode cache, dentry splicing, page
locking machinery) appear only through their observable effects on the
modelled state: flags on the folio/page, the Option result of iget, and
the boolean answer of the dir_emit sink.
-/

namespace SimpleFs

/- `int type` in the C Entry struct; only the two directory-entry type codes
DT_DIR and DT_REG occur in the program. -/
inductive FType where
  | DT_DIR
  | DT_REG
deriving DecidableEq, Repr

/- Mirrors `typedef struct { char *name; unsigned long ino; int type; char *content; } Entry;` -/
structure Entry where
  name : String
  ino : Nat
  type : FType
  content : String
deriving DecidableEq, Repr

def entry_dot : Entry := ⟨".", 1, FType.DT_DIR, ""⟩

def entry_dotdot : Entry := ⟨"..", 1, FType.DT_DIR, ""⟩

def entry_msg : Entry := ⟨"message.txt", 2, FType.DT_REG, "Hello World!"⟩

/- The static catalog `Entry Entries[] = { ... }` of simple_fs.c. -/
def Entries : List Entry := [entry_dot, entry_dotdot, entry_msg]

/- The behavior sets wired onto inodes; each is a distinct static table in
the C source, so an enumeration of table identities suffices. -/
inductive FileOps where
  | dir_fops
  | generic_ro_fops
deriving DecidableEq, Repr

inductive InodeOps where
  | dir_iops
deriving DecidableEq, Repr

inductive AddrOps where
  | reg_aops
deriving DecidableEq, Repr

def S_IFDIR : Nat := 0o040000

def S_IFREG : Nat := 0o100000

/- The fields of `struct inode` that simple_fs.c writes or reads.  Fields the
new-inode path leaves untouched are modelled as Option, none meaning
"not set by this module". -/
structure Inode where
  i_mode : Nat
  i_size : Nat
  i_ino : Nat
  i_blocks : Nat
  i_fop : FileOps
  i_op : Option InodeOps
  i_private : Option String
  a_ops : Option AddrOps
deriving DecidableEq, Repr

/- The catalog-entry selection inside simplefs_iget:
  `if(ino == 1) e = &Entries[0]; if(ino == 2) e = &Entries[2];`
The local `e` is assigned only in these two branches; for any other ino the
C code goes on to read an uninitialized pointer, which the embedding
represents as none (undefined). -/
def iget_entry (ino : Nat) : Option Entry :=
  if ino == 1 then some entry_dot
  else if ino == 2 then some entry_msg
  else none

/- The populate-new-inode part of simplefs_iget (the path taken when the
host cache reports I_NEW).  Directory entries get S_IFDIR|0555, dir fops
and iops, size 512; regular entries get S_IFREG|0444, generic_ro_fops,
size strlen(content), i_blocks = 1, i_private pointing at the entry
content, and the reg_aops address-space ops. -/
def simplefs_iget_new (ino : Nat) : Option Inode :=
  match iget_entry ino with
  | none => none
  | some e =>
    match e.type with
    | FType.DT_DIR =>
      some { i_mode := S_IFDIR ||| 0o555, i_size := 512, i_ino := ino,
             i_blocks := 0, i_fop := FileOps.dir_fops,
             i_op := some InodeOps.dir_iops, i_private := none, a_ops := none }
    | FType.DT_REG =>
      some { i_mode := S_IFREG ||| 0o444, i_size := e.content.length, i_ino := ino,
             i_blocks := 1, i_fop := FileOps.generic_ro_fops,
             i_op := none, i_private := some e.content,
             a_ops := some AddrOps.reg_aops }

/- The name scan of simplefs_lookup, tracking which entry determines the
result: `inode = NULL; for(i = 0; i < 3; i++) if(!strcmp(Entries[i].name,
name)) inode = simplefs_iget(..., Entries[i].ino);` — each match overwrites
the previous assignment, and the loop never breaks.  Generalized over the
scanned list (the C loop bound 3 is Entries.length). -/
def lookup_scan (es : List Entry) (nm : String) : Option Nat :=
  es.foldl (fun acc e => if e.name == nm then some e.ino else acc) none

/- simplefs_lookup itself: the same overwriting scan, where a match stores
the result of simplefs_iget for that entry into the local inode. -/
def simplefs_lookup (nm : String) : Option Inode :=
  Entries.foldl (fun acc e => if e.name == nm then simplefs_iget_new e.ino else acc) none

/- Modelled from the spec (amended lookup contract): the last entry of the
list whose name matches, the characterization the overwriting scan realizes. -/
def last_match_spec (es : List Entry) (nm : String) : Option Entry :=
  match es with
  | [] => none
  | e :: rest =>
    match last_match_spec rest nm with
    | some x => some x
    | none => if e.name == nm then some e else none

/- simplefs_readdir.  The C loop is
  `for(i = cxt->pos; i < 3; i++){ amount++; cxt->pos++;
     if(!dir_emit(...)) return amount; }
   return amount;`
Both the emitted count and the cursor are incremented BEFORE dir_emit is
consulted.  The sink is modelled as a function from the catalog index being
emitted to the dir_emit answer (true = accepted).  `remaining` is the loop
trip count 3 - pos; `i` plays both the roles of the C `i` and of cxt->pos,
which start equal and are incremented together.  Result: (amount, cxt->pos
at return). -/
def readdirLoop (sink : Nat → Bool) (remaining i amount : Nat) : Nat × Nat :=
  match remaining with
  | 0 => (amount, i)
  | r + 1 =>
    if sink i then readdirLoop sink r (i + 1) (amount + 1)
    else (amount + 1, i + 1)

def simplefs_readdir (sink : Nat → Bool) (pos : Nat) : Nat × Nat :=
  readdirLoop sink (3 - pos) pos 0

/- One page/folio handed to the read path: its page-cache index, its byte
buffer, and the two completion flags the module must set. -/
structure Folio where
  index : Nat
  buffer : List Char
  uptodate : Bool
  locked : Bool
deriving DecidableEq, Repr

/- memcpy(dst, src, n) into the start of dst, rest of dst untouched. -/
def memcpyN (dst src : List Char) (n : Nat) : List Char :=
  src.take n ++ dst.drop n

/- simplefs_read_folio: if folio->index > inode->i_size skip the copy, else
memcpy i_size bytes from inode->i_private into the page; on every path fall
through to `out:` which marks the folio uptodate, unlocks it and returns 0. -/
def simplefs_read_folio (folio : Folio) (inode : Inode) : Folio × Int :=
  if folio.index > inode.i_size then
    ({ folio with uptodate := true, locked := false }, 0)
  else
    ({ folio with
        buffer := memcpyN folio.buffer (inode.i_private.getD "").data inode.i_size,
        uptodate := true, locked := false }, 0)

/- The pre-5.15 simplefs_readpage variant, byte-for-byte the same logic on a
struct page (SetPageUptodate / unlock_page / return 0 on every path). -/
def simplefs_readpage (page : Folio) (inode : Inode) : Folio × Int :=
  if page.index > inode.i_size then
    ({ page with uptodate := true, locked := false }, 0)
  else
    ({ page with
        buffer := memcpyN page.buffer (inode.i_private.getD "").data inode.i_size,
        uptodate := true, locked := false }, 0)

/- simplefs_init: `ret = register_filesystem(...); ...; return 0;`
The registration outcome (0 = success) is an input from the host; the model
returns (stored global ret, value returned to the host). -/
def simplefs_init (regRet : Int) : Int × Int :=
  (regRet, 0)

/- simplefs_exit: `if(!ret) unregister_filesystem(...);` — true iff the
unregistration call is performed, given the stored global ret. -/
def simplefs_exit (ret : Int) : Bool :=
  ret == 0

/- The inode simplefs_iget materializes for identity 1 (the root directory). -/
def inode_root : Inode :=
  { i_mode := S_IFDIR ||| 0o555, i_size := 512, i_ino := 1, i_blocks := 0,
    i_fop := FileOps.dir_fops, i_op := some InodeOps.dir_iops,
    i_private := none, a_ops := none }

/- The inode simplefs_iget materializes for identity 2 (message.txt). -/
def inode_msg : Inode :=
  { i_mode := S_IFREG ||| 0o444, i_size := 12, i_ino := 2, i_blocks := 1,
    i_fop := FileOps.generic_ro_fops, i_op := none,
    i_private := some "Hello World!", a_ops := some AddrOps.reg_aops }

/- A 16-byte page with prior contents, used as a concrete read target. -/
def folio0 : Folio := ⟨0, List.replicate 16 'x', false, true⟩

/- Characterization of an overwriting match-scan: folding the catalog with
"on a name match, replace the accumulator by f of the entry" yields f at the
last matching entry, or the initial accumulator when nothing matches. -/
theorem foldl_overwrite {α : Type} (f : Entry → Option α) (nm : String) :
    ∀ (es : List Entry) (acc : Option α),
      es.foldl (fun a e => if e.name == nm then f e else a) acc
        = match last_match_spec es nm with
          | some x => f x
          | none => acc := by
  intro es
  induction es with
  | nil => intro acc; rfl
  | cons e rest ih =>
    intro acc
    simp only [List.foldl, last_match_spec]
    rw [ih]
    cases h : last_match_spec rest nm with
    | some x => rfl
    | none =>
      by_cases hn : (e.name == nm) = true
      · simp [hn]
      · simp [hn]

/- The emitted count of readdirLoop never falls below its accumulator. -/
theorem readdirLoop_fst_le (sink : Nat → Bool) :
    ∀ (rem i amount : Nat), amount ≤ (readdirLoop sink rem i amount).fst := by
  intro rem
  induction rem with
  | zero => intro i amount; exact Nat.le_refl _
  | succ r ih =>
    intro i amount
    simp only [readdirLoop]
    cases hs : sink i
    · simp only [Bool.false_eq_true, if_false]
      exact Nat.le_succ _
    · simp only [if_true]
      exact Nat.le_trans (Nat.le_succ _) (ih (i + 1) (amount + 1))

/- The cursor of readdirLoop never falls below its starting position. -/
theorem readdirLoop_snd_le (sink : Nat → Bool) :
    ∀ (rem i amount : Nat), i ≤ (readdirLoop sink rem i amount).snd := by
  intro rem
  induction rem with
  | zero => intro i amount; exact Nat.le_refl _
  | succ r ih =>
    intro i amount
    simp only [readdirLoop]
    cases hs : sink i
    · simp only [Bool.false_eq_true, if_false]
      exact Nat.le_succ _
    · simp only [if_true]
      exact Nat.le_trans (Nat.le_succ _) (ih (i + 1) (amount + 1))

/- One iteration of readdirLoop strictly grows the count. -/
theorem readdirLoop_succ_fst (sink : Nat → Bool) (r i amount : Nat) :
    amount + 1 ≤ (readdirLoop sink (r + 1) i amount).fst := by
  simp only [readdirLoop]
  cases hs : sink i
  · simp only [Bool.false_eq_true, if_false]
    exact Nat.le_refl _
  · simp only [if_true]
    exact readdirLoop_fst_le sink r (i + 1) (amount + 1)

/- One iteration of readdirLoop strictly advances the cursor. -/
theorem readdirLoop_succ_snd (sink : Nat → Bool) (r i amount : Nat) :
    i + 1 ≤ (readdirLoop sink (r + 1) i amount).snd := by
  simp only [readdirLoop]
  cases hs : sink i
  · simp only [Bool.false_eq_true, if_false]
    exact Nat.le_refl _
  · simp only [if_true]
    exact readdirLoop_snd_le sink r (i + 1) (amount + 1)

/-- C1: every exit path of the content-read operation (simplefs_read_folio
and the pre-5.15 simplefs_readpage variant), including the skipped-copy
out-of-range path, marks the folio/page uptodate and unlocked before
returning, and the return value is the success sentinel 0; there is no
failure path. -/
theorem read_ops_terminal_state (folio page : Folio) (ia ib : Inode) :
    (simplefs_read_folio folio ia).fst.uptodate = true ∧
    (simplefs_read_folio folio ia).fst.locked = false ∧
    (simplefs_read_folio folio ia).snd = 0 ∧
    (simplefs_readpage page ib).fst.uptodate = true ∧
    (simplefs_readpage page ib).fst.locked = false ∧
    (simplefs_readpage page ib).snd = 0 := by
  unfold simplefs_read_folio simplefs_readpage
  by_cases h1 : folio.index > ia.i_size <;>
    by_cases h2 : page.index > ib.i_size <;>
      simp [h1, h2]

/-- C2 (code bug evidence): when the emit sink refuses an entry,
simplefs_readdir has already incremented both the emitted count and the
cursor, so at cursor 0 with a sink that refuses the first entry it returns
count 1 with the cursor advanced to 1, and the follow-up call from cursor 1
emits only the remaining two entries — the refused first entry is counted
as emitted and permanently skipped, contrary to the claimed contract. -/
theorem readdir_refused_entry_counted :
    simplefs_readdir (fun _ => false) 0 = (1, 1) ∧
    simplefs_readdir (fun _ => true) 1 = (2, 3) := by
  exact ⟨rfl, rfl⟩

/-- C3: simplefs_readdir returns an emitted count of 0 exactly when the
cursor is already at or past the end of the three-entry catalog on entry;
for every cursor strictly below the catalog length the call both returns a
nonzero count and advances the cursor, whatever the sink answers. -/
theorem readdir_progress (sink : Nat → Bool) (pos : Nat) :
    ((simplefs_readdir sink pos).fst = 0 ↔ 3 ≤ pos) ∧
    (pos < 3 → 0 < (simplefs_readdir sink pos).fst ∧ pos < (simplefs_readdir sink pos).snd) := by
  constructor
  · constructor
    · intro h0
      by_contra hge
      push_neg at hge
      obtain ⟨r, hr⟩ : ∃ r, 3 - pos = r + 1 := ⟨2 - pos, by omega⟩
      have hf := readdirLoop_succ_fst sink r pos 0
      rw [simplefs_readdir, hr] at h0
      omega
    · intro h3
      rw [simplefs_readdir, Nat.sub_eq_zero_of_le h3]
      rfl
  · intro hlt
    obtain ⟨r, hr⟩ : ∃ r, 3 - pos = r + 1 := ⟨2 - pos, by omega⟩
    rw [simplefs_readdir, hr]
    exact ⟨readdirLoop_succ_fst sink r pos 0, readdirLoop_succ_snd sink r pos 0⟩

/-- C3 witness: the progress property instantiated at cursor 0 with an
always-accepting sink. -/
theorem readdir_progress_witness :
    ((simplefs_readdir (fun _ => true) 0).fst = 0 ↔ 3 ≤ 0) ∧
    (0 < 3 → 0 < (simplefs_readdir (fun _ => true) 0).fst ∧
      0 < (simplefs_readdir (fun _ => true) 0).snd) :=
  readdir_progress (fun _ => true) 0

/-- C4 counterexample: resolving the name ".." to its identity (1) and that
identity back through the iget entry selection yields the entry ".", whose
name differs from "..", so the round-trip does not preserve this name. -/
theorem roundtrip_name_counterexample :
    ((lookup_scan Entries "..").bind iget_entry).map Entry.name = some "." ∧
    ((lookup_scan Entries "..").bind iget_entry).map Entry.name ≠ some ".." := by
  exact ⟨by decide, by decide⟩

/-- C4 (amended): for every entry of the static catalog the round-trip
find_by_identity (find_by_name name) preserves the IDENTITY; the name is
preserved for "." and "message.txt", while ".." comes back as "." because
identities 1 is shared by both directory entries and resolves to the first. -/
theorem roundtrip_identity_preserved :
    (Entries.all fun e =>
        ((lookup_scan Entries e.name).bind iget_entry).map Entry.ino == some e.ino) = true ∧
    ((lookup_scan Entries ".").bind iget_entry).map Entry.name = some "." ∧
    ((lookup_scan Entries "message.txt").bind iget_entry).map Entry.name
        = some "message.txt" ∧
    ((lookup_scan Entries "..").bind iget_entry).map Entry.name = some "." := by
  exact ⟨by decide, by decide, by decide, by decide⟩

/-- C5: when simplefs_iget materializes a new inode, a Directory catalog
entry yields directory mode S_IFDIR|0555 (the S_IFMT bits are S_IFDIR, no
write bit is set, all read and traverse bits are set), size 512 and the
directory behavior set; a Regular entry yields size equal to the byte
length of the entry content (12 for message.txt), the regular-file behavior
set, and an i_private content pointer holding exactly the catalog entry
content. -/
theorem iget_materialization (ino : Nat) (e : Entry) (inode : Inode)
    (he : iget_entry ino = some e) (hi : simplefs_iget_new ino = some inode) :
    (e.type = FType.DT_DIR →
        inode.i_mode = S_IFDIR ||| 0o555 ∧
        inode.i_mode &&& 0o170000 = S_IFDIR ∧
        inode.i_mode &&& 0o222 = 0 ∧
        inode.i_mode &&& 0o555 = 0o555 ∧
        inode.i_size = 512 ∧
        inode.i_fop = FileOps.dir_fops ∧
        inode.i_op = some InodeOps.dir_iops) ∧
    (e.type = FType.DT_REG →
        inode.i_size = e.content.length ∧
        inode.i_fop = FileOps.generic_ro_fops ∧
        inode.a_ops = some AddrOps.reg_aops ∧
        inode.i_private = some e.content ∧
        (ino = 2 → inode.i_size = 12 ∧ inode.i_private = some "Hello World!")) := by
  by_cases h1 : ino = 1
  · subst h1
    rw [show iget_entry 1 = some entry_dot from rfl, Option.some.injEq] at he
    rw [show simplefs_iget_new 1 = some inode_root from rfl, Option.some.injEq] at hi
    subst he
    subst hi
    exact ⟨fun _ => by decide, fun ht => absurd ht (by decide)⟩
  · by_cases h2 : ino = 2
    · subst h2
      rw [show iget_entry 2 = some entry_msg from rfl, Option.some.injEq] at he
      rw [show simplefs_iget_new 2 = some inode_msg from rfl, Option.some.injEq] at hi
      subst he
      subst hi
      exact ⟨fun ht => absurd ht (by decide), fun _ => by decide⟩
    · exfalso
      have hn : iget_entry ino = none := by simp [iget_entry, h1, h2]
      rw [hn] at he
      exact Option.noConfusion he

/-- C5 witness: the materialization contract instantiated at identity 2,
the message.txt entry. -/
theorem iget_materialization_witness :
    iget_entry 2 = some entry_msg ∧
    simplefs_iget_new 2 = some inode_msg ∧
    ((entry_msg.type = FType.DT_DIR →
        inode_msg.i_mode = S_IFDIR ||| 0o555 ∧
        inode_msg.i_mode &&& 0o170000 = S_IFDIR ∧
        inode_msg.i_mode &&& 0o222 = 0 ∧
        inode_msg.i_mode &&& 0o555 = 0o555 ∧
        inode_msg.i_size = 512 ∧
        inode_msg.i_fop = FileOps.dir_fops ∧
        inode_msg.i_op = some InodeOps.dir_iops) ∧
     (entry_msg.type = FType.DT_REG →
        inode_msg.i_size = entry_msg.content.length ∧
        inode_msg.i_fop = FileOps.generic_ro_fops ∧
        inode_msg.a_ops = some AddrOps.reg_aops ∧
        inode_msg.i_private = some entry_msg.content ∧
        (2 = 2 → inode_msg.i_size = 12 ∧ inode_msg.i_private = some "Hello World!"))) :=
  ⟨rfl, rfl, iget_materialization 2 entry_msg inode_msg rfl rfl⟩

/-- C6: on a content read of a Regular materialized object (one whose
i_private holds content of byte length i_size), a page index strictly
greater than the byte size skips the copy and leaves the buffer untouched;
otherwise exactly i_size bytes of the content are copied to the start of
the buffer and the remainder of the buffer past those bytes is left as-is,
with no zero-filling. -/
theorem read_folio_copy_semantics (folio : Folio) (inode : Inode) (c : String)
    (hp : inode.i_private = some c) (hl : c.data.length = inode.i_size) :
    (folio.index > inode.i_size →
        (simplefs_read_folio folio inode).fst.buffer = folio.buffer) ∧
    (¬ folio.index > inode.i_size →
        (simplefs_read_folio folio inode).fst.buffer
          = c.data ++ folio.buffer.drop inode.i_size) := by
  constructor
  · intro h
    simp [simplefs_read_folio, h]
  · intro h
    simp only [simplefs_read_folio, h, if_false, memcpyN, hp, Option.getD_some]
    rw [← hl, List.take_length]

/-- C6 witness: reading page index 0 of the message.txt inode into a page
previously filled with sixteen x characters. -/
theorem read_folio_copy_semantics_witness :
    inode_msg.i_private = some "Hello World!" ∧
    ("Hello World!" : String).data.length = inode_msg.i_size ∧
    ((folio0.index > inode_msg.i_size →
        (simplefs_read_folio folio0 inode_msg).fst.buffer = folio0.buffer) ∧
     (¬ folio0.index > inode_msg.i_size →
        (simplefs_read_folio folio0 inode_msg).fst.buffer
          = ("Hello World!" : String).data ++ folio0.buffer.drop inode_msg.i_size)) :=
  ⟨rfl, by decide, read_folio_copy_semantics folio0 inode_msg "Hello World!" rfl (by decide)⟩

/-- C7 counterexample: on a scan list with two entries sharing a name, the
overwriting scan of simplefs_lookup returns the identity of the LATEST
matching entry in scan order (8), not that of the earliest (7), refuting
the claimed first-match tie-break. -/
theorem lookup_earliest_counterexample :
    lookup_scan
        [⟨"dup", 7, FType.DT_REG, "a"⟩, ⟨"dup", 8, FType.DT_REG, "b"⟩] "dup"
      = some 8 ∧
    lookup_scan
        [⟨"dup", 7, FType.DT_REG, "a"⟩, ⟨"dup", 8, FType.DT_REG, "b"⟩] "dup"
      ≠ some 7 := by
  exact ⟨by decide, by decide⟩

/-- C7 (amended): simplefs_lookup scans the catalog in its fixed order with
a byte-exact, case-sensitive name comparison and resolves the matched
identity through simplefs_iget; because the loop never breaks and each
match overwrites the result, the entry LATEST in catalog order determines
the result when names are shared — on the reference catalog names are
unique, so the last match is the only match, and lookup of message.txt is
exactly the identity-2 materialization while a case-variant name finds
nothing. -/
theorem lookup_last_match (es : List Entry) (nm : String) :
    lookup_scan es nm = (last_match_spec es nm).map Entry.ino ∧
    simplefs_lookup nm
      = (match last_match_spec Entries nm with
         | some e => simplefs_iget_new e.ino
         | none => none) ∧
    simplefs_lookup "message.txt" = simplefs_iget_new 2 ∧
    simplefs_lookup "Message.txt" = none := by
  refine ⟨?_, ?_, by decide, by decide⟩
  · have h : lookup_scan es nm
        = match last_match_spec es nm with
          | some x => some x.ino
          | none => none :=
      foldl_overwrite (fun e => some e.ino) nm es none
    rw [h]
    cases last_match_spec es nm <;> rfl
  · exact foldl_overwrite (fun e => simplefs_iget_new e.ino) nm Entries none

/-- C8: for every name matching no catalog entry, simplefs_lookup leaves
the local inode NULL, so the host receives a negative (no entry) answer,
never an error value. -/
theorem lookup_absent_none (nm : String)
    (h : ∀ e ∈ Entries, e.name ≠ nm) : simplefs_lookup nm = none := by
  have h0 := h entry_dot (by decide)
  have h1 := h entry_dotdot (by decide)
  have h2 := h entry_msg (by decide)
  simp [simplefs_lookup, Entries, List.foldl, h0, h1, h2]

/-- C8 witness: the absent name does-not-exist resolves to none. -/
theorem lookup_absent_none_witness :
    (∀ e ∈ Entries, e.name ≠ "does-not-exist") ∧
    simplefs_lookup "does-not-exist" = none :=
  ⟨by decide, lookup_absent_none "does-not-exist" (by decide)⟩

/-- C9: the catalog-entry selection of simplefs_iget assigns its local
entry pointer exactly in the branches for identities 1 and 2, so the
resolver (and the inode it populates) is defined precisely when the
requested identity is 1 or 2 — for any other new identity the C code would
dispatch on an uninitialized pointer, modelled here as none. -/
theorem iget_defined_iff (ino : Nat) :
    ((iget_entry ino).isSome = true ↔ ino = 1 ∨ ino = 2) ∧
    ((simplefs_iget_new ino).isSome = true ↔ ino = 1 ∨ ino = 2) := by
  by_cases h1 : ino = 1
  · subst h1
    exact ⟨by decide, by decide⟩
  · by_cases h2 : ino = 2
    · subst h2
      exact ⟨by decide, by decide⟩
    · have hn : iget_entry ino = none := by simp [iget_entry, h1, h2]
      refine ⟨?_, ?_⟩ <;> simp [simplefs_iget_new, hn, h1, h2]

/-- C9 witness: the definedness equivalence instantiated at identity 2. -/
theorem iget_defined_iff_witness :
    ((iget_entry 2).isSome = true ↔ 2 = 1 ∨ 2 = 2) ∧
    ((simplefs_iget_new 2).isSome = true ↔ 2 = 1 ∨ 2 = 2) :=
  iget_defined_iff 2

/-- C10: simplefs_init returns 0 to the host whatever the registration
outcome, records that outcome in the module-level ret flag, and
simplefs_exit performs the unregistration call exactly when the recorded
registration succeeded (returned 0). -/
theorem init_ignores_registration_failure (regRet : Int) :
    (simplefs_init regRet).snd = 0 ∧
    (simplefs_init regRet).fst = regRet ∧
    (simplefs_exit (simplefs_init regRet).fst = true ↔ regRet = 0) := by
  refine ⟨rfl, rfl, ?_⟩
  simp [simplefs_exit, simplefs_init]

/-- C10 witness: the lifecycle contract instantiated at a failing
registration outcome of -1. -/
theorem init_ignores_registration_failure_witness :
    (simplefs_init (-1)).snd = 0 ∧
    (simplefs_init (-1)).fst = -1 ∧
    (simplefs_exit (simplefs_init (-1)).fst = true ↔ (-1 : Int) = 0) :=
  init_ignores_registration_failure (-1)

end SimpleFs
